import Mathlib

/-!
A verification development for the Personal Expense Tracker
(`expense_tracker.py`): a shallow embedding of its data model and of the
operations behind the filter / aggregate / delete / CSV-codec logic, together
with theorems settling the specified properties.

Conventions of the embedding:
* pandas `DataFrame` rows become `Record`s; the `Date` column is
  `Option String` (`none` models a `NaN`/`NaT` cell), `Amount` is a small
  sum type over `ℚ` with explicit `nan` / `inf` / `neginf` float values.
* library calls (`pd.to_datetime`, `pd.to_numeric`, `pd.read_csv` cell
  NA-handling, `DataFrame.merge`) are modelled by explicit Lean functions,
  documented at their definitions.
* the mutable Tk application state (`self.df`, `self.filtered_df`, the three
  filter entry variables) becomes the `AppState` structure, and each event
  handler becomes a state-passing function.
-/

namespace ExpenseTrackerModel

instance {ε α : Type} [DecidableEq ε] [DecidableEq α] : DecidableEq (Except ε α) := fun x y =>
  match x, y with
  | .ok a, .ok b =>
    if h : a = b then .isTrue (by rw [h]) else .isFalse (by intro hh; cases hh; exact h rfl)
  | .error a, .error b =>
    if h : a = b then .isTrue (by rw [h]) else .isFalse (by intro hh; cases hh; exact h rfl)
  | .ok _, .error _ => .isFalse (by intro hh; cases hh)
  | .error _, .ok _ => .isFalse (by intro hh; cases hh)

/-! ## Decimal-digit utilities (used by the strptime model and CSV printing) -/

/-- Numeric value of a decimal digit character (`c.toNat - 48`). -/
def char_val (c : Char) : ℕ := c.toNat - 48

/-- The decimal digit character for `n < 10` (`'9'` used as a junk default). -/
def digit_char : ℕ → Char
  | 0 => '0' | 1 => '1' | 2 => '2' | 3 => '3' | 4 => '4'
  | 5 => '5' | 6 => '6' | 7 => '7' | 8 => '8' | _ => '9'

/-- Little-endian decimal digits of `n` (empty for `0`), with explicit fuel so
that the definition is structural and kernel-reducible. -/
def nat_digits_fuel : ℕ → ℕ → List ℕ
  | 0, _ => []
  | fuel + 1, n => if n = 0 then [] else n % 10 :: nat_digits_fuel fuel (n / 10)

/-- Little-endian decimal digits of `n` (empty for `0`). -/
def nat_digits (n : ℕ) : List ℕ := nat_digits_fuel n n

/-- Little-endian digits of `n` zero-padded on the high end to width `k`. -/
def pad_le (k n : ℕ) : List ℕ :=
  nat_digits n ++ List.replicate (k - (nat_digits n).length) 0

/-- Big-endian, `k`-wide, zero-padded decimal character rendering of `n`. -/
def pad_chars (k n : ℕ) : List Char := (pad_le k n).reverse.map digit_char

/-- Big-endian decimal character rendering of `n` (no padding, `"0"` for `0`). -/
def nat_to_chars (n : ℕ) : List Char :=
  if n = 0 then ['0'] else (nat_digits n).reverse.map digit_char

/-- Parse a non-empty all-digit character list as a natural number. -/
def parse_nat_chars (l : List Char) : Option ℕ :=
  if !l.isEmpty && l.all Char.isDigit then
    some (l.foldl (fun a c => 10 * a + char_val c) 0)
  else none

/-- Split a character list at every occurrence of `c` (the list of fields is
never empty; models both `str.split` and the fixed separators of the
`strptime` format strings). -/
def split_char (c : Char) : List Char → List (List Char)
  | [] => [[]]
  | x :: xs =>
    match split_char c xs with
    | [] => [[]]
    | h :: t => if x = c then [] :: h :: t else (x :: h) :: t

/-! ## Calendar dates and the `parse_date` fallback chain

`parse_date` in the source tries, in order, the `strptime` formats
`%Y-%m-%d`, `%d-%m-%Y`, `%d/%m/%Y`, `%Y/%m/%d`, `%d %b %Y`, `%d %B %Y`,
returning the first success; an empty (stripped) string returns `None` and a
non-empty unparsable string raises `ValueError`. CPython's `strptime`
requires exactly four digits for `%Y`, one or two digits valued 1–12 for
`%m`, one or two digits valued 1–31 for `%d`, and then the `datetime`
constructor validates the calendar date. -/

/-- A calendar date (no time component). -/
structure CalDate where
  year : ℕ
  month : ℕ
  day : ℕ
  deriving DecidableEq, Repr

/-- Gregorian leap year test. -/
def is_leap (y : ℕ) : Bool := (y % 4 = 0 && y % 100 ≠ 0) || y % 400 = 0

/-- Days in a month (0 for an invalid month number). -/
def days_in_month (y m : ℕ) : ℕ :=
  if m = 1 ∨ m = 3 ∨ m = 5 ∨ m = 7 ∨ m = 8 ∨ m = 10 ∨ m = 12 then 31
  else if m = 4 ∨ m = 6 ∨ m = 9 ∨ m = 11 then 30
  else if m = 2 then (if is_leap y then 29 else 28)
  else 0

/-- The dates `datetime.date` can represent: year 1–9999, valid month and
day-of-month. -/
def valid_date (d : CalDate) : Prop :=
  1 ≤ d.year ∧ d.year ≤ 9999 ∧ 1 ≤ d.month ∧ d.month ≤ 12 ∧
    1 ≤ d.day ∧ d.day ≤ days_in_month d.year d.month

instance : DecidablePred valid_date := fun d => by unfold valid_date; infer_instance

/-- The `datetime(y, m, d)` constructor: `some` exactly for valid dates. -/
def mk_date (y m d : ℕ) : Option CalDate :=
  if valid_date ⟨y, m, d⟩ then some ⟨y, m, d⟩ else none

/-- `strptime`'s `%Y` field: exactly four digits. -/
def field_year (l : List Char) : Option ℕ :=
  if l.length = 4 then parse_nat_chars l else none

/-- `strptime`'s `%m` field: one or two digits valued 1–12. -/
def field_month (l : List Char) : Option ℕ :=
  if l.length = 1 ∨ l.length = 2 then
    (parse_nat_chars l).bind fun v => if 1 ≤ v ∧ v ≤ 12 then some v else none
  else none

/-- `strptime`'s `%d` field: one or two digits valued 1–31. -/
def field_day (l : List Char) : Option ℕ :=
  if l.length = 1 ∨ l.length = 2 then
    (parse_nat_chars l).bind fun v => if 1 ≤ v ∧ v ≤ 31 then some v else none
  else none

/-- English month-name abbreviations (`%b`), case-insensitive. -/
def month_abbr (l : List Char) : Option ℕ :=
  match String.mk (l.map Char.toLower) with
  | "jan" => some 1 | "feb" => some 2 | "mar" => some 3 | "apr" => some 4
  | "may" => some 5 | "jun" => some 6 | "jul" => some 7 | "aug" => some 8
  | "sep" => some 9 | "oct" => some 10 | "nov" => some 11 | "dec" => some 12
  | _ => none

/-- Full English month names (`%B`), case-insensitive. -/
def month_full (l : List Char) : Option ℕ :=
  match String.mk (l.map Char.toLower) with
  | "january" => some 1 | "february" => some 2 | "march" => some 3
  | "april" => some 4 | "may" => some 5 | "june" => some 6
  | "july" => some 7 | "august" => some 8 | "september" => some 9
  | "october" => some 10 | "november" => some 11 | "december" => some 12
  | _ => none

/-- Format `%Y-%m-%d`. -/
def fmt_iso (s : List Char) : Option CalDate :=
  match split_char '-' s with
  | [ys, ms, ds] => do
    let y ← field_year ys
    let m ← field_month ms
    let d ← field_day ds
    mk_date y m d
  | _ => none

/-- Format `%d-%m-%Y`. -/
def fmt_dmy_dash (s : List Char) : Option CalDate :=
  match split_char '-' s with
  | [ds, ms, ys] => do
    let d ← field_day ds
    let m ← field_month ms
    let y ← field_year ys
    mk_date y m d
  | _ => none

/-- Format `%d/%m/%Y`. -/
def fmt_dmy_slash (s : List Char) : Option CalDate :=
  match split_char '/' s with
  | [ds, ms, ys] => do
    let d ← field_day ds
    let m ← field_month ms
    let y ← field_year ys
    mk_date y m d
  | _ => none

/-- Format `%Y/%m/%d`. -/
def fmt_ymd_slash (s : List Char) : Option CalDate :=
  match split_char '/' s with
  | [ys, ms, ds] => do
    let y ← field_year ys
    let m ← field_month ms
    let d ← field_day ds
    mk_date y m d
  | _ => none

/-- Format `%d %b %Y` (whitespace in the format matches runs of blanks). -/
def fmt_d_mon_y (s : List Char) : Option CalDate :=
  match (split_char ' ' s).filter (fun f => !f.isEmpty) with
  | [ds, mon, ys] => do
    let d ← field_day ds
    let m ← month_abbr mon
    let y ← field_year ys
    mk_date y m d
  | _ => none

/-- Format `%d %B %Y`. -/
def fmt_d_month_y (s : List Char) : Option CalDate :=
  match (split_char ' ' s).filter (fun f => !f.isEmpty) with
  | [ds, mon, ys] => do
    let d ← field_day ds
    let m ← month_full mon
    let y ← field_year ys
    mk_date y m d
  | _ => none

/-- The fallback chain of `parse_date`: first successful format wins. -/
def try_formats (s : String) : Option CalDate :=
  let l := s.toList
  fmt_iso l <|> fmt_dmy_dash l <|> fmt_dmy_slash l <|> fmt_ymd_slash l <|>
    fmt_d_mon_y l <|> fmt_d_month_y l

/-- `parse_date` from the source: strip, `None` for empty, first format of the
chain to succeed, `ValueError` (here `.error`) when every format fails. -/
def parse_date (s : String) : Except String (Option CalDate) :=
  if s.trim = "" then .ok none
  else
    match try_formats s.trim with
    | some d => .ok (some d)
    | none => .error "Invalid date format. Try YYYY-MM-DD (e.g., 2025-08-16)."

/-- Model of `pd.to_datetime` applied to one cell string: pandas accepts (at
least) every format of the app's chain; unparsable strings are the
`errors="coerce"` → `NaT` case, surfaced as `none` by the callers below. -/
def pd_parse (s : String) : Option CalDate := try_formats s

/-- `date.strftime("%Y-%m-%d")`: zero-padded ISO rendering. -/
def iso_string (d : CalDate) : String :=
  String.mk (pad_chars 4 d.year ++ '-' :: (pad_chars 2 d.month ++ '-' :: pad_chars 2 d.day))

/-- Calendar-date comparison (lexicographic on year, month, day), the order of
Python `datetime.date` objects. -/
def date_le (a b : CalDate) : Bool :=
  if a.year = b.year then
    if a.month = b.month then a.day ≤ b.day else a.month < b.month
  else a.year < b.year

/-! ## Records and amounts

The `Amount` column holds Python floats. The embedding keeps their exact
values as rationals and represents the non-finite floats explicitly, which is
what the aggregation and matching logic can observe (binary rounding of
personal-scale amounts is not modelled). -/

/-- A float value of the `Amount` column. -/
inductive Amount where
  | num (q : ℚ)
  | nan
  | inf
  | neginf
  deriving DecidableEq, Repr

/-- One row of the canonical table: `date` is the stored `Date` cell
(`none` models a `NaN`/`NaT` produced by coercion in `load_csv`). -/
structure Record where
  date : Option String
  category : String
  amount : Amount
  description : String
  deriving DecidableEq, Repr

/-- `fillna(0.0)` on an amount. -/
def fillna0 : Amount → Amount
  | .nan => .num 0
  | a => a

/-- IEEE float addition on the modelled values (finite overflow is not
modelled; amounts are personal-scale). -/
def add_amount : Amount → Amount → Amount
  | .nan, _ => .nan
  | _, .nan => .nan
  | .inf, .neginf => .nan
  | .neginf, .inf => .nan
  | .inf, _ => .inf
  | _, .inf => .inf
  | .neginf, _ => .neginf
  | _, .neginf => .neginf
  | .num a, .num b => .num (a + b)

/-- The finite value of an amount, with the non-finite floats sent to `0`
(the spec's reading of "treat as 0"). -/
def rat_of : Amount → ℚ
  | .num q => q
  | _ => 0

/-- The total of `refresh_table`:
`pd.to_numeric(view["Amount"], errors="coerce").fillna(0.0)` (the identity on
an already numeric column followed by `NaN → 0`), then `np.nansum`, with `0.0`
substituted for an empty column. -/
def total_of (view : List Record) : Amount :=
  let amounts := (view.map Record.amount).map fillna0
  if amounts.isEmpty then .num 0 else amounts.foldl add_amount (.num 0)

/-! ## Rounding of displayed amounts

`refresh_table` displays `f"{amount:.2f}"` and `on_delete` compares
`view["Amount"].astype(float).round(2)` against `float(selected_cell)`.
Both Python's string formatting and `numpy.round` round half to even. -/

/-- Round a rational to an integer, half to even. -/
def round_half_even (q : ℚ) : ℤ :=
  let f := q.floor
  let r := q - (f : ℚ)
  if r < 1 / 2 then f
  else if 1 / 2 < r then f + 1
  else if f % 2 = 0 then f else f + 1

/-- `numpy.round(x, 2)` on an exact value. -/
def round2 (q : ℚ) : ℚ := (round_half_even (q * 100) : ℚ) / 100

/-! ## CSV codec (`load_csv` / `save_csv`)

A CSV file is modelled after the `csv` layer has split it into cells: a header
row of column names and a list of rows of cell strings (standard CSV escaping
is thus already undone). `pd.read_csv` reads an empty cell and every cell
equal to one of its default NA tokens as `NaN`. -/

/-- The default `na_values` token list of `pd.read_csv`: a cell holding any
of these strings is read as `NaN`. -/
def na_tokens : List String :=
  ["", "#N/A", "#N/A N/A", "#NA", "-1.#IND", "-1.#QNAN", "-NaN", "-nan",
   "1.#IND", "1.#QNAN", "<NA>", "N/A", "NA", "NULL", "NaN", "None",
   "n/a", "nan", "null"]

/-- A parsed CSV table. -/
structure CSVTable where
  header : List String
  rows : List (List String)
  deriving DecidableEq, Repr

/-- `DEFAULT_COLUMNS` from the source. -/
def DEFAULT_COLUMNS : List String := ["Date", "Category", "Amount", "Description"]

/-- Index of a column name in the header. -/
def col_index (header : List String) (col : String) : Option ℕ :=
  match header with
  | [] => none
  | h :: t => if h = col then some 0 else (col_index t col).map (· + 1)

/-- The cell of `row` under column `col`, with the NA rule of `pd.read_csv`:
an empty cell or any default NA token is read as `NaN` (a row shorter than
the header also yields `NaN`). -/
def cell_of (header row : List String) (col : String) : Option String :=
  ((col_index header col).bind fun i => row.get? i).bind
    fun s => if s ∈ na_tokens then none else some s

/-- Model of `pd.to_numeric(cell, errors="coerce")` on a cell string: an
optionally signed decimal numeral, with an optional fractional part
(scientific notation and the `inf` spellings are not needed by the claims). -/
def parse_unsigned (l : List Char) : Option ℚ :=
  match split_char '.' l with
  | [ip] => (parse_nat_chars ip).map fun n => (n : ℚ)
  | [ip, fp] =>
    if ip.isEmpty && fp.isEmpty then none
    else do
      let i ← if ip.isEmpty then some 0 else parse_nat_chars ip
      let f ← if fp.isEmpty then some 0 else parse_nat_chars fp
      some ((i : ℚ) + (f : ℚ) / ((10 ^ fp.length : ℕ) : ℚ))
  | _ => none

/-- Numeric parsing of a cell, with sign. -/
def parse_numeric (s : String) : Option ℚ :=
  match s.toList with
  | [] => none
  | c :: rest =>
    if c = '-' then (parse_unsigned rest).map (fun q => -q)
    else parse_unsigned (c :: rest)

/-- Errors of the codec: `SchemaError` carries the missing column names. -/
inductive DecodeError where
  | schemaError (missing : List String)
  deriving DecidableEq, Repr

/-- One row of `load_csv`'s column-wise normalization:
* `Date`: `pd.to_datetime(..., errors="coerce").dt.strftime("%Y-%m-%d")` —
  an unparsable or missing cell becomes `NaT` and then stays missing;
* `Amount`: `pd.to_numeric(..., errors="coerce").fillna(0.0)`;
* `Description`: `fillna("")`; `Category`: `fillna("Other")`. -/
def decode_row (header row : List String) : Record where
  date := ((cell_of header row "Date").bind pd_parse).map iso_string
  category := (cell_of header row "Category").getD "Other"
  amount :=
    match (cell_of header row "Amount").bind parse_numeric with
    | some q => .num q
    | none => .num 0
  description := (cell_of header row "Description").getD ""

/-- `load_csv`'s dataframe computation: the presence of every required column
is checked first (`raise ValueError(f"CSV missing columns: {missing}")`),
before any per-row work; then each row is normalized. -/
def decode (csv : CSVTable) : Except DecodeError (List Record) :=
  let missing := DEFAULT_COLUMNS.filter fun c => !csv.header.contains c
  if missing.isEmpty then .ok (csv.rows.map (decode_row csv.header))
  else .error (.schemaError missing)

/-- Largest `e` with `p ^ e ∣ n`, fuel-based (0 when `p < 2` or `n = 0`). -/
def max_pow_fuel : ℕ → ℕ → ℕ → ℕ
  | 0, _, _ => 0
  | fuel + 1, p, n =>
    if 2 ≤ p ∧ 0 < n ∧ n % p = 0 then 1 + max_pow_fuel fuel p (n / p) else 0

/-- Largest `e` with `p ^ e ∣ n`. -/
def max_pow (p n : ℕ) : ℕ := max_pow_fuel n p n

/-- The number of decimal places needed by an exact value: the larger of the
2-adic and 5-adic valuations of the reduced denominator. -/
def amount_exp (q : ℚ) : ℕ := max (max_pow 2 q.den) (max_pow 5 q.den)

/-- `q` has a terminating decimal expansion (true of every finite float). -/
def is_decimal (q : ℚ) : Prop := (q * ((10 ^ amount_exp q : ℕ) : ℚ)).den = 1

instance : DecidablePred is_decimal := fun q => by unfold is_decimal; infer_instance

/-- The digits of a float rendering: `na` scaled by `10 ^ k`, written with
`k` decimal places (`.0` kept on integral values). -/
def amount_body (na k : ℕ) : List Char :=
  if k = 0 then nat_to_chars na ++ ['.', '0']
  else nat_to_chars (na / 10 ^ k) ++ '.' :: pad_chars k (na % 10 ^ k)

/-- The decimal rendering `DataFrame.to_csv` gives a float: shortest exact
decimal form, with `.0` kept on integral values; `NaN` is written as an empty
cell. -/
def amount_to_string : Amount → String
  | .num q =>
    let k := amount_exp q
    let n := (q * ((10 ^ k : ℕ) : ℚ)).num
    String.mk (if n < 0 then '-' :: amount_body n.natAbs k else amount_body n.natAbs k)
  | .nan => ""
  | .inf => "inf"
  | .neginf => "-inf"

/-- The characters a float rendering can consist of: digits, the decimal
point and the minus sign (no NA token is made of these alone). -/
def numeric_char (c : Char) : Bool := c.isDigit || c == '.' || c == '-'

/-- `save_csv`: `self.df.to_csv(path, index=False)` — one header row and one
cell row per record, with a `NaN` date written as an empty cell. -/
def encode (records : List Record) : CSVTable where
  header := DEFAULT_COLUMNS
  rows := records.map fun r =>
    [r.date.getD "", r.category, amount_to_string r.amount, r.description]

/-! ## Application state and the filter handlers -/

/-- The mutable state the handlers touch: the canonical store `df`, the cached
filtered view `filtered_df`, and the three filter entry variables. -/
structure AppState where
  df : List Record
  filtered : Option (List Record)
  fromVar : String
  toVar : String
  filterCatVar : String
  deriving DecidableEq, Repr

/-- `get_view_df`: the displayed table (filtered view when one is active). -/
def get_view_df (s : AppState) : List Record := s.filtered.getD s.df

/-- `clear_filter`: reset the three filter entries, drop the cached view (the
display is then recomputed from the canonical store). -/
def clear_filter (s : AppState) : AppState :=
  { s with fromVar := "", toVar := "", filterCatVar := "All", filtered := none }

/-- Failures of `apply_filter`, all caught at the handler boundary:
an unparsable bound string (`parse_date` raising `ValueError`), or
`pd.to_datetime(df["Date"])` raising on a malformed stored date string. -/
inductive FilterError where
  | invalidCriteria
  | badDateColumn
  deriving DecidableEq, Repr

/-- Whether `pd.to_datetime` accepts a record's `Date` cell (a missing date is
`NaT`, not an error). Every record the program itself puts in the store
satisfies this: both entry paths store ISO strings or a missing marker. -/
def date_cell_parseable (r : Record) : Bool :=
  match r.date with
  | none => true
  | some s => (pd_parse s).isSome

/-- The parsed date of a record's cell. -/
def row_date (r : Record) : Option CalDate := r.date.bind pd_parse

/-- One date-bound pass of `apply_filter`:
`df = df[pd.to_datetime(df["Date"]).dt.date <cmp> bound]`. The column
conversion runs first and raises if any present cell is unparsable (no
`errors="coerce"` here); a `NaT` compares as `False` and is filtered out. -/
def date_col_filter (l : List Record) (p : CalDate → Bool) :
    Except FilterError (List Record) :=
  if l.all date_cell_parseable then
    .ok (l.filter fun r =>
      match row_date r with
      | some d => p d
      | none => false)
  else .error .badDateColumn

/-- The `From` pass of `apply_filter`: skipped when the stripped entry is
empty, otherwise `parse_date` then keep the rows dated on or after the bound.
(`parse_date` cannot return `None` here since its argument strips to the same
non-empty string; that arm mirrors the handler's blanket `except`.) -/
def from_step (l : List Record) (fromS : String) : Except FilterError (List Record) :=
  if fromS.trim = "" then .ok l
  else
    match parse_date fromS with
    | .ok (some fd) => date_col_filter l (fun d => date_le fd d)
    | _ => .error .invalidCriteria

/-- The `To` pass of `apply_filter`, symmetric to `from_step`. -/
def to_step (l : List Record) (toS : String) : Except FilterError (List Record) :=
  if toS.trim = "" then .ok l
  else
    match parse_date toS with
    | .ok (some td) => date_col_filter l (fun d => date_le d td)
    | _ => .error .invalidCriteria

/-- The category pass: `if c and c != "All": df = df[df["Category"] == c]`. -/
def category_step (l : List Record) (c : String) : List Record :=
  if c ≠ "" ∧ c ≠ "All" then l.filter (fun r => r.category == c) else l

/-- The body of `apply_filter` on a copy of the store: the three passes in
source order, any exception aborting the whole computation. -/
def apply_filter_core (df0 : List Record) (fromS toS catS : String) :
    Except FilterError (List Record) :=
  match from_step df0 fromS with
  | .error e => .error e
  | .ok df1 =>
    match to_step df1 toS with
    | .error e => .error e
    | .ok df2 => .ok (category_step df2 catS)

/-- The `apply_filter` handler: on success the result becomes the cached view;
on any exception a message box is shown and no state changes. -/
def apply_filter (s : AppState) : AppState :=
  match apply_filter_core s.df s.fromVar s.toVar s.filterCatVar with
  | .ok v => { s with filtered := some v }
  | .error _ => s

/-- The lower-bound condition of the spec: absent (blank) bound, or a record
date on or after the parsed bound; a record without a parsable date satisfies
no present bound. (The unparsable-bound arm is arbitrary: `apply_filter`
never filters with one.) -/
def from_pred (fromS : String) (r : Record) : Bool :=
  if fromS.trim = "" then true
  else
    match try_formats fromS.trim with
    | some fd =>
      match row_date r with
      | some d => date_le fd d
      | none => false
    | none => true

/-- The upper-bound condition, symmetric to `from_pred`. -/
def to_pred (toS : String) (r : Record) : Bool :=
  if toS.trim = "" then true
  else
    match try_formats toS.trim with
    | some td =>
      match row_date r with
      | some d => date_le d td
      | none => false
    | none => true

/-- The category condition: exact equality when a constraint is present
(`""` and `"All"` are the no-constraint sentinels). -/
def cat_pred (catS : String) (r : Record) : Bool :=
  if catS ≠ "" ∧ catS ≠ "All" then r.category == catS else true

/-- Written from the spec's wording of §4.2, to be compared with
`apply_filter_core`: a record is in the filtered view exactly when its date
lies within the present bounds inclusively (calendar-date comparison; a bound
is present when its entry strips to a non-empty string) and its category
equals the constraint exactly when one is present. -/
def criteria_spec (fromS toS catS : String) (r : Record) : Bool :=
  from_pred fromS r && to_pred toS r && cat_pred catS r

/-! ## Deletion (`on_delete`)

A selected tree row is given by its four displayed cells
`[row["Date"], row["Category"], f"{row['Amount']:.2f}", row["Description"]]`.
The model carries the numeric value `float(vals[2])` of the displayed amount
cell directly (a selected row always shows a 2-decimal rendering, so the
`float` call cannot fail for finite amounts; selecting a row displaying a
non-finite amount is outside the model). -/

/-- The field values of one selected tree row. -/
structure SelRow where
  dateS : String
  cat : String
  amt2 : ℚ
  desc : String
  deriving DecidableEq, Repr

/-- The per-row match mask of `on_delete`: string equality on the `Date` cell
(a `NaN` cell equals no string), on `Category` and `Description`, and
`view["Amount"].astype(float).round(2) == float(vals[2])` on the amount
(comparisons against `NaN` are `False`; a non-finite amount never equals a
finite displayed value). -/
def matches_sel (r : Record) (sr : SelRow) : Bool :=
  (r.date == some sr.dateS) && (r.category == sr.cat) &&
    (match r.amount with
     | .num q => round2 q == sr.amt2
     | _ => false) &&
    (r.description == sr.desc)

/-- `np.where(mask)[0]` followed by taking `idx[0]`: position of the first
view row matching the selected row. -/
def find_first_match (view : List Record) (sr : SelRow) : Option ℕ :=
  match view with
  | [] => none
  | r :: rest =>
    if matches_sel r sr then some 0 else (find_first_match rest sr).map (· + 1)

/-- `indices_to_drop`: for each selected row in order, the first matching view
position; rows with no match are skipped. -/
def matched_indices (view : List Record) (sel : List SelRow) : List ℕ :=
  sel.filterMap (find_first_match view)

/-- `view.drop(indices_to_drop)`: remove the rows at the listed positions
(repeated positions count once). -/
def drop_indices_from (idxs : List ℕ) : ℕ → List Record → List Record
  | _, [] => []
  | i, r :: rest =>
    if idxs.contains i then drop_indices_from idxs (i + 1) rest
    else r :: drop_indices_from idxs (i + 1) rest

/-- `view.drop(indices).reset_index(drop=True)`. -/
def drop_indices (l : List Record) (idxs : List ℕ) : List Record :=
  drop_indices_from idxs 0 l

/-- `view.iloc[indices_to_drop]`: the rows at the listed positions, in list
order, with repetitions. -/
def rows_at (l : List Record) (idxs : List ℕ) : List Record :=
  idxs.filterMap l.get?

/-- Row equality on all of `DEFAULT_COLUMNS`, the join key of the removal
merge (pandas matches `NaN` keys with `NaN`, as the derived equality on
`Option`/`Amount` does). -/
def tuple_eq (r t : Record) : Bool :=
  (r.date == t.date) && (r.category == t.category) &&
    (r.amount == t.amount) && (r.description == t.description)

/-- The rows of
`self.df.merge(to_remove.assign(_rm=1), how="left", on=DEFAULT_COLUMNS)`:
a left merge emits, in left order, one copy of each left row per matching
right row (its `_rm` cell `1`, flag `true`), or a single unmatched copy
(`_rm` cell `NaN`, flag `false`). -/
def merge_rows (df to_remove : List Record) : List (Record × Bool) :=
  df.flatMap fun r =>
    let ms := to_remove.filter (tuple_eq r)
    if ms.isEmpty then [(r, false)] else ms.map fun _ => (r, true)

/-- The filtered-branch store rebuild: the merge above followed by
`self.df[self.df["_rm"].isna()].drop(columns=["_rm"])`. -/
def merge_remove (df to_remove : List Record) : List Record :=
  ((merge_rows df to_remove).filter fun p => !p.2).map (·.1)

/-- The reported outcome of the delete handler. -/
inductive DeleteResult where
  | noSelection
  | cancelled
  | deleted
  | notFound
  deriving DecidableEq, Repr

/-- `on_delete`: nothing happens without a selection or a confirmation; the
first matching view position is collected per selected row; with no matches a
"Could not locate the selected rows" warning is shown and nothing changes;
otherwise the store is rebuilt — positionally from the view when no filter is
active, by full-field-tuple merge removal when one is — and `clear_filter`
runs (clearing the filter and recomputing the display from the new store). -/
def on_delete (s : AppState) (sel : List SelRow) (confirmed : Bool) :
    AppState × DeleteResult :=
  if sel.isEmpty then (s, .noSelection)
  else if !confirmed then (s, .cancelled)
  else
    let view := get_view_df s
    let idxs := matched_indices view sel
    if idxs.isEmpty then (s, .notFound)
    else
      let s2 :=
        match s.filtered with
        | some _ =>
          let to_remove := rows_at view idxs
          { s with df := merge_remove s.df to_remove }
        | none => { s with df := drop_indices view idxs }
      (clear_filter s2, .deleted)

/-! ## Lemmas: decimal digits round-trip -/

theorem ofDigits_nat_digits_fuel (fuel : ℕ) : ∀ n : ℕ, n ≤ fuel →
    Nat.ofDigits 10 (nat_digits_fuel fuel n) = n := by
  induction fuel with
  | zero => intro n h; interval_cases n; simp [nat_digits_fuel]
  | succ fuel ih =>
    intro n h
    unfold nat_digits_fuel
    by_cases h0 : n = 0
    · simp [h0]
    · rw [if_neg h0, Nat.ofDigits_cons, ih (n / 10) ?_]
      · omega
      · have : n / 10 < n := Nat.div_lt_self (by omega) (by omega)
        omega

theorem nat_digits_fuel_lt_ten (fuel : ℕ) : ∀ n : ℕ, ∀ d ∈ nat_digits_fuel fuel n, d < 10 := by
  induction fuel with
  | zero => intro n d hd; simp [nat_digits_fuel] at hd
  | succ fuel ih =>
    intro n d hd
    unfold nat_digits_fuel at hd
    by_cases h0 : n = 0
    · simp [h0] at hd
    · rw [if_neg h0] at hd
      rcases List.mem_cons.mp hd with h | h
      · omega
      · exact ih _ _ h

theorem nat_digits_fuel_length (fuel : ℕ) : ∀ n k : ℕ, n ≤ fuel → n < 10 ^ k →
    (nat_digits_fuel fuel n).length ≤ k := by
  induction fuel with
  | zero => intro n k h hk; interval_cases n; simp [nat_digits_fuel]
  | succ fuel ih =>
    intro n k h hk
    unfold nat_digits_fuel
    by_cases h0 : n = 0
    · simp [h0]
    · rw [if_neg h0]
      cases k with
      | zero => simp at hk; omega
      | succ k =>
        have hd : n / 10 < 10 ^ k := by
          rw [Nat.div_lt_iff_lt_mul (by omega)]
          calc n < 10 ^ (k + 1) := hk
          _ = 10 ^ k * 10 := by ring
        have hf : n / 10 ≤ fuel := by
          have : n / 10 < n := Nat.div_lt_self (by omega) (by omega)
          omega
        simpa using Nat.succ_le_succ (ih (n / 10) k hf hd)

theorem ofDigits_nat_digits (n : ℕ) : Nat.ofDigits 10 (nat_digits n) = n :=
  ofDigits_nat_digits_fuel n n le_rfl

theorem nat_digits_lt_ten (n : ℕ) : ∀ d ∈ nat_digits n, d < 10 :=
  nat_digits_fuel_lt_ten n n

theorem nat_digits_length (n k : ℕ) (h : n < 10 ^ k) : (nat_digits n).length ≤ k :=
  nat_digits_fuel_length n n k le_rfl h

theorem ofDigits_replicate_zero (j : ℕ) : Nat.ofDigits 10 (List.replicate j 0) = 0 := by
  induction j with
  | zero => simp
  | succ j ih => simp [List.replicate_succ, Nat.ofDigits_cons, ih]

theorem pad_le_length (k n : ℕ) (h : n < 10 ^ k) : (pad_le k n).length = k := by
  have := nat_digits_length n k h
  simp [pad_le]
  omega

theorem ofDigits_pad_le (k n : ℕ) : Nat.ofDigits 10 (pad_le k n) = n := by
  rw [pad_le, Nat.ofDigits_append, ofDigits_nat_digits, ofDigits_replicate_zero]
  ring

theorem pad_le_lt_ten (k n : ℕ) : ∀ d ∈ pad_le k n, d < 10 := by
  intro d hd
  rcases List.mem_append.mp hd with h | h
  · exact nat_digits_lt_ten n d h
  · have := List.eq_of_mem_replicate h
    omega

theorem char_val_digit_char (d : ℕ) (h : d < 10) : char_val (digit_char d) = d := by
  interval_cases d <;> rfl

theorem digit_char_isDigit (d : ℕ) (h : d < 10) : (digit_char d).isDigit = true := by
  interval_cases d <;> rfl

theorem foldl_ofDigits (ds : List ℕ) (a : ℕ) :
    ds.reverse.foldl (fun acc d => 10 * acc + d) a = a * 10 ^ ds.length + Nat.ofDigits 10 ds := by
  induction ds generalizing a with
  | nil => simp
  | cons d t ih =>
    rw [List.reverse_cons, List.foldl_append, ih]
    simp [Nat.ofDigits_cons, pow_succ]
    ring

theorem parse_digit_list (ds : List ℕ) (hds : ∀ d ∈ ds, d < 10) (hne : ds ≠ []) :
    parse_nat_chars (ds.reverse.map digit_char) = some (Nat.ofDigits 10 ds) := by
  have h1 : (ds.reverse.map digit_char).isEmpty = false := by
    simp [List.isEmpty_iff, hne]
  have h2 : (ds.reverse.map digit_char).all Char.isDigit = true := by
    rw [List.all_eq_true]
    intro c hc
    rcases List.mem_map.mp hc with ⟨d, hd, rfl⟩
    exact digit_char_isDigit d (hds d (List.mem_reverse.mp hd))
  unfold parse_nat_chars
  rw [if_pos (by rw [h1, h2]; rfl), List.foldl_map]
  have hfold : ds.reverse.foldl (fun a d => 10 * a + char_val (digit_char d)) 0
      = ds.reverse.foldl (fun a d => 10 * a + d) 0 := by
    apply List.foldl_ext
    intro a d hd
    rw [char_val_digit_char d (hds d (List.mem_reverse.mp hd))]
  rw [hfold, foldl_ofDigits]
  simp

theorem parse_pad_chars (k n : ℕ) (hk : 0 < k) (h : n < 10 ^ k) :
    parse_nat_chars (pad_chars k n) = some n := by
  rw [pad_chars, parse_digit_list (pad_le k n) (pad_le_lt_ten k n), ofDigits_pad_le]
  intro hnil
  have := pad_le_length k n h
  rw [hnil] at this
  simp at this
  omega

theorem nat_digits_ne_nil (n : ℕ) (h : n ≠ 0) : nat_digits n ≠ [] := by
  unfold nat_digits nat_digits_fuel
  cases n with
  | zero => omega
  | succ m => simp

theorem parse_nat_to_chars (n : ℕ) : parse_nat_chars (nat_to_chars n) = some n := by
  unfold nat_to_chars
  by_cases h0 : n = 0
  · subst h0; rfl
  · rw [if_neg h0, parse_digit_list (nat_digits n) (nat_digits_lt_ten n) (nat_digits_ne_nil n h0),
      ofDigits_nat_digits]

theorem pad_chars_length (k n : ℕ) (h : n < 10 ^ k) : (pad_chars k n).length = k := by
  simp [pad_chars, pad_le_length k n h]

theorem pad_chars_all_digits (k n : ℕ) : ∀ c ∈ pad_chars k n, c.isDigit = true := by
  intro c hc
  rcases List.mem_map.mp hc with ⟨d, hd, rfl⟩
  exact digit_char_isDigit d (pad_le_lt_ten k n d (List.mem_reverse.mp hd))

theorem nat_to_chars_all_digits (n : ℕ) : ∀ c ∈ nat_to_chars n, c.isDigit = true := by
  intro c hc
  unfold nat_to_chars at hc
  by_cases h0 : n = 0
  · simp [h0] at hc; simp [hc]
  · rw [if_neg h0] at hc
    rcases List.mem_map.mp hc with ⟨d, hd, rfl⟩
    exact digit_char_isDigit d (nat_digits_lt_ten n d (List.mem_reverse.mp hd))

theorem nat_to_chars_ne_nil (n : ℕ) : nat_to_chars n ≠ [] := by
  unfold nat_to_chars
  by_cases h0 : n = 0
  · simp [h0]
  · rw [if_neg h0]
    simp [nat_digits_ne_nil n h0]

/-! ## Lemmas: splitting on a separator -/

theorem split_char_ne_nil (c : Char) (l : List Char) : split_char c l ≠ [] := by
  induction l with
  | nil => simp [split_char]
  | cons x xs ih =>
    unfold split_char
    cases hs : split_char c xs with
    | nil => exact absurd hs ih
    | cons h t => by_cases hx : x = c <;> simp [hx]

theorem split_char_cons_self (c : Char) (rest : List Char) :
    split_char c (c :: rest) = [] :: split_char c rest := by
  conv_lhs => unfold split_char
  cases hs : split_char c rest with
  | nil => exact absurd hs (split_char_ne_nil c rest)
  | cons h t => simp

theorem split_char_cons_of_ne (c x : Char) (xs : List Char) (h2 : List Char)
    (t2 : List (List Char)) (hx : x ≠ c) (hs : split_char c xs = h2 :: t2) :
    split_char c (x :: xs) = (x :: h2) :: t2 := by
  conv_lhs => unfold split_char
  rw [hs]
  simp [hx]

theorem split_char_not_mem (c : Char) (l : List Char) (h : c ∉ l) : split_char c l = [l] := by
  induction l with
  | nil => rfl
  | cons x xs ih =>
    have hx : x ≠ c := fun hh => h (hh ▸ List.mem_cons_self x xs)
    have hxs : c ∉ xs := fun hh => h (List.mem_cons_of_mem x hh)
    exact split_char_cons_of_ne c x xs xs [] hx (ih hxs)

theorem split_char_append (c : Char) (a rest : List Char) (h : c ∉ a) :
    split_char c (a ++ c :: rest) = a :: split_char c rest := by
  induction a with
  | nil => simpa using split_char_cons_self c rest
  | cons x xs ih =>
    have hx : x ≠ c := fun hh => h (hh ▸ List.mem_cons_self x xs)
    have hxs : c ∉ xs := fun hh => h (List.mem_cons_of_mem x hh)
    simpa using split_char_cons_of_ne c x (xs ++ c :: rest) xs (split_char c rest) hx (ih hxs)

/-! ## Lemmas: the date chain inverts ISO rendering, and only yields valid dates -/

theorem days_in_month_le_31 (y m : ℕ) : days_in_month y m ≤ 31 := by
  unfold days_in_month
  split
  · omega
  · split
    · omega
    · split
      · split <;> omega
      · omega

theorem pad_chars_sep_not_mem (k n : ℕ) (c : Char) (hc : c.isDigit = false) :
    c ∉ pad_chars k n := by
  intro hmem
  have := pad_chars_all_digits k n c hmem
  rw [hc] at this
  cases this

theorem field_year_pad (y : ℕ) (h : y ≤ 9999) : field_year (pad_chars 4 y) = some y := by
  have hy : y < 10 ^ 4 := by norm_num; omega
  unfold field_year
  rw [if_pos (pad_chars_length 4 y hy), parse_pad_chars 4 y (by norm_num) hy]

theorem field_month_pad (m : ℕ) (h1 : 1 ≤ m) (h2 : m ≤ 12) :
    field_month (pad_chars 2 m) = some m := by
  have hm : m < 10 ^ 2 := by norm_num; omega
  unfold field_month
  rw [if_pos (Or.inr (pad_chars_length 2 m hm)), parse_pad_chars 2 m (by norm_num) hm]
  simp [Option.bind]
  omega

theorem field_day_pad (d : ℕ) (h1 : 1 ≤ d) (h2 : d ≤ 31) :
    field_day (pad_chars 2 d) = some d := by
  have hd : d < 10 ^ 2 := by norm_num; omega
  unfold field_day
  rw [if_pos (Or.inr (pad_chars_length 2 d hd)), parse_pad_chars 2 d (by norm_num) hd]
  simp [Option.bind]
  omega

theorem mk_date_of_valid (y m d : ℕ) (h : valid_date ⟨y, m, d⟩) :
    mk_date y m d = some ⟨y, m, d⟩ := by
  unfold mk_date
  rw [if_pos h]

theorem iso_string_toList (dt : CalDate) : (iso_string dt).toList =
    pad_chars 4 dt.year ++ '-' :: (pad_chars 2 dt.month ++ '-' :: pad_chars 2 dt.day) := rfl

theorem fmt_iso_iso_string (dt : CalDate) (h : valid_date dt) :
    fmt_iso (iso_string dt).toList = some dt := by
  obtain ⟨h1, h2, h3, h4, h5, h6⟩ := h
  have hsep : ('-' : Char).isDigit = false := rfl
  unfold fmt_iso
  rw [iso_string_toList,
    split_char_append '-' _ _ (pad_chars_sep_not_mem 4 dt.year '-' hsep),
    split_char_append '-' _ _ (pad_chars_sep_not_mem 2 dt.month '-' hsep),
    split_char_not_mem '-' _ (pad_chars_sep_not_mem 2 dt.day '-' hsep)]
  simp only [field_year_pad dt.year h2, field_month_pad dt.month h3 h4,
    field_day_pad dt.day h5 (le_trans h6 (days_in_month_le_31 dt.year dt.month)),
    Option.bind_some, Option.some_bind]
  exact mk_date_of_valid dt.year dt.month dt.day ⟨h1, h2, h3, h4, h5, h6⟩

theorem try_formats_iso_string (dt : CalDate) (h : valid_date dt) :
    try_formats (iso_string dt) = some dt := by
  have hi : fmt_iso (iso_string dt).data = some dt := fmt_iso_iso_string dt h
  unfold try_formats
  simp [hi]

theorem pd_parse_iso_string (dt : CalDate) (h : valid_date dt) :
    pd_parse (iso_string dt) = some dt :=
  try_formats_iso_string dt h

theorem iso_string_ne_empty (dt : CalDate) : iso_string dt ≠ "" := by
  intro hh
  have : (iso_string dt).toList = [] := by rw [hh]; rfl
  rw [iso_string_toList] at this
  rcases List.append_eq_nil.mp this with ⟨_, h2⟩
  cases h2

theorem mk_date_valid (y m d : ℕ) (dt : CalDate) (h : mk_date y m d = some dt) :
    valid_date dt := by
  unfold mk_date at h
  split at h
  · cases h; assumption
  · cases h

theorem fmt_iso_valid (l : List Char) (dt : CalDate) (h : fmt_iso l = some dt) :
    valid_date dt := by
  unfold fmt_iso at h
  split at h
  · obtain ⟨y, _, h⟩ := Option.bind_eq_some.mp h
    obtain ⟨m, _, h⟩ := Option.bind_eq_some.mp h
    obtain ⟨d, _, h⟩ := Option.bind_eq_some.mp h
    exact mk_date_valid y m d dt h
  · cases h

theorem fmt_dmy_dash_valid (l : List Char) (dt : CalDate) (h : fmt_dmy_dash l = some dt) :
    valid_date dt := by
  unfold fmt_dmy_dash at h
  split at h
  · obtain ⟨d, _, h⟩ := Option.bind_eq_some.mp h
    obtain ⟨m, _, h⟩ := Option.bind_eq_some.mp h
    obtain ⟨y, _, h⟩ := Option.bind_eq_some.mp h
    exact mk_date_valid y m d dt h
  · cases h

theorem fmt_dmy_slash_valid (l : List Char) (dt : CalDate) (h : fmt_dmy_slash l = some dt) :
    valid_date dt := by
  unfold fmt_dmy_slash at h
  split at h
  · obtain ⟨d, _, h⟩ := Option.bind_eq_some.mp h
    obtain ⟨m, _, h⟩ := Option.bind_eq_some.mp h
    obtain ⟨y, _, h⟩ := Option.bind_eq_some.mp h
    exact mk_date_valid y m d dt h
  · cases h

theorem fmt_ymd_slash_valid (l : List Char) (dt : CalDate) (h : fmt_ymd_slash l = some dt) :
    valid_date dt := by
  unfold fmt_ymd_slash at h
  split at h
  · obtain ⟨y, _, h⟩ := Option.bind_eq_some.mp h
    obtain ⟨m, _, h⟩ := Option.bind_eq_some.mp h
    obtain ⟨d, _, h⟩ := Option.bind_eq_some.mp h
    exact mk_date_valid y m d dt h
  · cases h

theorem fmt_d_mon_y_valid (l : List Char) (dt : CalDate) (h : fmt_d_mon_y l = some dt) :
    valid_date dt := by
  unfold fmt_d_mon_y at h
  split at h
  · obtain ⟨d, _, h⟩ := Option.bind_eq_some.mp h
    obtain ⟨m, _, h⟩ := Option.bind_eq_some.mp h
    obtain ⟨y, _, h⟩ := Option.bind_eq_some.mp h
    exact mk_date_valid y m d dt h
  · cases h

theorem fmt_d_month_y_valid (l : List Char) (dt : CalDate) (h : fmt_d_month_y l = some dt) :
    valid_date dt := by
  unfold fmt_d_month_y at h
  split at h
  · obtain ⟨d, _, h⟩ := Option.bind_eq_some.mp h
    obtain ⟨m, _, h⟩ := Option.bind_eq_some.mp h
    obtain ⟨y, _, h⟩ := Option.bind_eq_some.mp h
    exact mk_date_valid y m d dt h
  · cases h

theorem orElse_cases {α : Type} (a b : Option α) (x : α) (h : (a <|> b) = some x) :
    a = some x ∨ b = some x := by
  cases a with
  | some v => left; simpa using h
  | none => right; simpa using h

theorem try_formats_valid (s : String) (dt : CalDate) (h : try_formats s = some dt) :
    valid_date dt := by
  unfold try_formats at h
  simp only at h
  rcases orElse_cases _ _ _ h with h | h
  · exact fmt_iso_valid _ dt h
  rcases orElse_cases _ _ _ h with h | h
  · exact fmt_dmy_dash_valid _ dt h
  rcases orElse_cases _ _ _ h with h | h
  · exact fmt_dmy_slash_valid _ dt h
  rcases orElse_cases _ _ _ h with h | h
  · exact fmt_ymd_slash_valid _ dt h
  rcases orElse_cases _ _ _ h with h | h
  · exact fmt_d_mon_y_valid _ dt h
  · exact fmt_d_month_y_valid _ dt h

theorem pd_parse_valid (s : String) (dt : CalDate) (h : pd_parse s = some dt) :
    valid_date dt :=
  try_formats_valid s dt h

/-! ## Lemmas: numeric parsing inverts the CSV float rendering -/

theorem parse_nat_chars_zero : parse_nat_chars ['0'] = some 0 := rfl

theorem dot_not_mem_nat_to_chars (x : ℕ) : ('.' : Char) ∉ nat_to_chars x := by
  intro hmem
  have := nat_to_chars_all_digits x '.' hmem
  cases this

theorem nat_to_chars_isEmpty (x : ℕ) : (nat_to_chars x).isEmpty = false := by
  simp [List.isEmpty_iff, nat_to_chars_ne_nil]

theorem parse_unsigned_frac (na k : ℕ) (hk : 0 < k) :
    parse_unsigned (nat_to_chars (na / 10 ^ k) ++ '.' :: pad_chars k (na % 10 ^ k)) =
      some ((na : ℚ) / ((10 ^ k : ℕ) : ℚ)) := by
  have hpow : (0 : ℕ) < 10 ^ k := by positivity
  have hmod : na % 10 ^ k < 10 ^ k := Nat.mod_lt _ hpow
  have hfp_len : (pad_chars k (na % 10 ^ k)).length = k := pad_chars_length k _ hmod
  have hfp : (pad_chars k (na % 10 ^ k)).isEmpty = false := by
    cases hl : pad_chars k (na % 10 ^ k) with
    | nil => rw [hl] at hfp_len; simp at hfp_len; omega
    | cons a b => rfl
  have hP : ((10 ^ k : ℕ) : ℚ) ≠ 0 := by
    rw [Nat.cast_ne_zero]; omega
  have hnat : na / 10 ^ k * 10 ^ k + na % 10 ^ k = na := by
    rw [mul_comm]; exact Nat.div_add_mod na (10 ^ k)
  unfold parse_unsigned
  rw [split_char_append '.' _ _ (dot_not_mem_nat_to_chars _),
    split_char_not_mem '.' _ (pad_chars_sep_not_mem k _ '.' rfl)]
  simp [nat_to_chars_isEmpty, hfp, parse_nat_to_chars, parse_pad_chars k _ hk hmod, hfp_len]
  have hP2 : ((10 : ℚ)) ^ k ≠ 0 := by positivity
  rw [eq_div_iff hP2, add_mul, div_mul_cancel₀ _ hP2]
  exact_mod_cast hnat

theorem parse_unsigned_int (na : ℕ) :
    parse_unsigned (nat_to_chars na ++ ['.', '0']) = some ((na : ℕ) : ℚ) := by
  have hsplit : split_char '.' (nat_to_chars na ++ '.' :: ['0']) =
      nat_to_chars na :: split_char '.' ['0'] :=
    split_char_append '.' _ _ (dot_not_mem_nat_to_chars _)
  have h0 : split_char '.' ['0'] = [['0']] := split_char_not_mem '.' _ (by decide)
  unfold parse_unsigned
  rw [show (nat_to_chars na ++ ['.', '0']) = nat_to_chars na ++ '.' :: ['0'] from rfl,
    hsplit, h0]
  simp [nat_to_chars_isEmpty, parse_nat_to_chars, parse_nat_chars_zero]

theorem parse_numeric_mk_unsigned (x : ℕ) (suffix : List Char) :
    parse_numeric (String.mk (nat_to_chars x ++ suffix)) =
      parse_unsigned (nat_to_chars x ++ suffix) := by
  obtain ⟨hc, tl, hx⟩ := List.exists_cons_of_ne_nil (nat_to_chars_ne_nil x)
  have hdig : hc.isDigit = true := nat_to_chars_all_digits x hc (hx ▸ List.mem_cons_self hc tl)
  have hne : hc ≠ '-' := by intro hh; rw [hh] at hdig; cases hdig
  unfold parse_numeric
  rw [show (String.mk (nat_to_chars x ++ suffix)).toList = nat_to_chars x ++ suffix from rfl, hx]
  simp [hne]

theorem parse_numeric_mk_neg (body : List Char) :
    parse_numeric (String.mk ('-' :: body)) = (parse_unsigned body).map (fun q => -q) := by
  unfold parse_numeric
  rfl

theorem parse_unsigned_amount_body (na k : ℕ) :
    parse_unsigned (amount_body na k) = some ((na : ℚ) / ((10 ^ k : ℕ) : ℚ)) := by
  unfold amount_body
  by_cases hk0 : k = 0
  · rw [if_pos hk0, parse_unsigned_int, hk0]
    norm_num
  · rw [if_neg hk0]
    exact parse_unsigned_frac na k (Nat.pos_of_ne_zero hk0)

theorem amount_body_head_digits (na k : ℕ) :
    ∃ x suffix, amount_body na k = nat_to_chars x ++ suffix := by
  unfold amount_body
  by_cases hk0 : k = 0
  · exact ⟨na, ['.', '0'], by rw [if_pos hk0]⟩
  · exact ⟨na / 10 ^ k, '.' :: pad_chars k (na % 10 ^ k), by rw [if_neg hk0]⟩

theorem amount_round_trip (q : ℚ) (h : is_decimal q) :
    parse_numeric (amount_to_string (.num q)) = some q := by
  unfold is_decimal at h
  have hP : ((10 ^ amount_exp q : ℕ) : ℚ) ≠ 0 := by
    rw [Nat.cast_ne_zero]; positivity
  have hqm : ((q * ((10 ^ amount_exp q : ℕ) : ℚ)).num : ℚ) = q * ((10 ^ amount_exp q : ℕ) : ℚ) := by
    exact_mod_cast (Rat.den_eq_one_iff _).mp h
  set k := amount_exp q with hkdef
  set m := (q * ((10 ^ k : ℕ) : ℚ)).num with hmdef
  have hq : q = (m : ℚ) / ((10 ^ k : ℕ) : ℚ) := (eq_div_iff hP).mpr hqm.symm
  have hstr : amount_to_string (.num q) =
      String.mk (if m < 0 then '-' :: amount_body m.natAbs k else amount_body m.natAbs k) := rfl
  rw [hstr]
  by_cases hneg : m < 0
  · have h1 : ((m.natAbs : ℕ) : ℤ) = -m := by omega
    have hcast : ((m.natAbs : ℕ) : ℚ) = -(m : ℚ) := by
      rw [← Int.cast_natCast (R := ℚ) m.natAbs, h1, Int.cast_neg]
    rw [if_pos hneg, parse_numeric_mk_neg, parse_unsigned_amount_body, hcast,
      Option.map_some', hq]
    congr 1
    rw [neg_div, neg_neg]
  · have h1 : ((m.natAbs : ℕ) : ℤ) = m := by omega
    have hcast : ((m.natAbs : ℕ) : ℚ) = (m : ℚ) := by
      rw [← Int.cast_natCast (R := ℚ) m.natAbs, h1]
    obtain ⟨x, suffix, hb⟩ := amount_body_head_digits m.natAbs k
    rw [if_neg hneg, hb, parse_numeric_mk_unsigned, ← hb, parse_unsigned_amount_body]
    rw [hq, hcast]

/-! ## Lemmas: decoding an encoded table -/

theorem cell_of_date (a b c d : String) :
    cell_of DEFAULT_COLUMNS [a, b, c, d] "Date" = if a ∈ na_tokens then none else some a := by
  simp [cell_of, col_index, DEFAULT_COLUMNS]

theorem cell_of_category (a b c d : String) :
    cell_of DEFAULT_COLUMNS [a, b, c, d] "Category" = if b ∈ na_tokens then none else some b := by
  simp [cell_of, col_index, DEFAULT_COLUMNS]

theorem cell_of_amount (a b c d : String) :
    cell_of DEFAULT_COLUMNS [a, b, c, d] "Amount" = if c ∈ na_tokens then none else some c := by
  simp [cell_of, col_index, DEFAULT_COLUMNS]

theorem cell_of_description (a b c d : String) :
    cell_of DEFAULT_COLUMNS [a, b, c, d] "Description" = if d ∈ na_tokens then none else some d := by
  simp [cell_of, col_index, DEFAULT_COLUMNS]

theorem amount_to_string_num_ne_empty (q : ℚ) : amount_to_string (.num q) ≠ "" := by
  intro hh
  have hl : (amount_to_string (.num q)).data = [] := by rw [hh]
  set m := (q * ((10 ^ amount_exp q : ℕ) : ℚ)).num with hmdef
  have : (amount_to_string (.num q)).data =
      if m < 0 then '-' :: amount_body m.natAbs (amount_exp q)
      else amount_body m.natAbs (amount_exp q) := rfl
  rw [this] at hl
  obtain ⟨x, suffix, hb⟩ := amount_body_head_digits m.natAbs (amount_exp q)
  by_cases hneg : m < 0
  · rw [if_pos hneg] at hl; cases hl
  · rw [if_neg hneg, hb] at hl
    rcases List.append_eq_nil.mp hl with ⟨h1, _⟩
    exact nat_to_chars_ne_nil x h1

theorem iso_string_length (dt : CalDate) (h : valid_date dt) :
    (iso_string dt).data.length = 10 := by
  obtain ⟨h1, h2, h3, h4, h5, h6⟩ := h
  have hy : dt.year < 10 ^ 4 := by norm_num; omega
  have hm : dt.month < 10 ^ 2 := by norm_num; omega
  have hd : dt.day < 10 ^ 2 := by
    have := days_in_month_le_31 dt.year dt.month
    norm_num
    omega
  have hl : (iso_string dt).data =
      pad_chars 4 dt.year ++ '-' :: (pad_chars 2 dt.month ++ '-' :: pad_chars 2 dt.day) := rfl
  rw [hl]
  simp [pad_chars_length 4 _ hy, pad_chars_length 2 _ hm, pad_chars_length 2 _ hd]

/-- Every default NA token is at most 8 characters long, so no zero-padded
ISO date string (10 characters) is read back as `NaN`. -/
theorem iso_string_not_na (dt : CalDate) (h : valid_date dt) : iso_string dt ∉ na_tokens := by
  intro hmem
  have hlen : ∀ t ∈ na_tokens, t.data.length ≤ 8 := by decide
  have := hlen _ hmem
  rw [iso_string_length dt h] at this
  omega

theorem amount_body_numeric (na k : ℕ) : ∀ c ∈ amount_body na k, numeric_char c = true := by
  intro c hc
  unfold amount_body at hc
  by_cases hk0 : k = 0
  · rw [if_pos hk0] at hc
    rcases List.mem_append.mp hc with h | h
    · simp [numeric_char, nat_to_chars_all_digits na c h]
    · rcases List.mem_cons.mp h with rfl | h2
      · rfl
      rcases List.mem_cons.mp h2 with rfl | h3
      · rfl
      · cases h3
  · rw [if_neg hk0] at hc
    rcases List.mem_append.mp hc with h | h
    · simp [numeric_char, nat_to_chars_all_digits _ c h]
    · rcases List.mem_cons.mp h with rfl | h2
      · rfl
      · simp [numeric_char, pad_chars_all_digits _ _ c h2]

theorem amount_chars_numeric (q : ℚ) :
    ∀ c ∈ (amount_to_string (.num q)).data, numeric_char c = true := by
  set m := (q * ((10 ^ amount_exp q : ℕ) : ℚ)).num with hmdef
  have hl : (amount_to_string (.num q)).data =
      if m < 0 then '-' :: amount_body m.natAbs (amount_exp q)
      else amount_body m.natAbs (amount_exp q) := rfl
  intro c hc
  rw [hl] at hc
  by_cases hneg : m < 0
  · rw [if_pos hneg] at hc
    rcases List.mem_cons.mp hc with rfl | h2
    · rfl
    · exact amount_body_numeric _ _ c h2
  · rw [if_neg hneg] at hc
    exact amount_body_numeric _ _ c hc

/-- Every non-empty default NA token holds a character a float rendering
cannot, and a float rendering is never empty, so `to_csv` output for a finite
amount is never read back as `NaN`. -/
theorem amount_to_string_not_na (q : ℚ) : amount_to_string (.num q) ∉ na_tokens := by
  intro hmem
  have hall : (amount_to_string (.num q)).data.all numeric_char = true :=
    List.all_eq_true.mpr (amount_chars_numeric q)
  have hbad : ∀ t ∈ na_tokens, t ≠ "" → t.data.all numeric_char = false := by decide
  have := hbad _ hmem (amount_to_string_num_ne_empty q)
  rw [this] at hall
  exact Bool.false_ne_true hall

/-- One record of the canonical round-trip: a record with a canonical ISO
date, a finite decimal amount, a category that is no `read_csv` NA token and
a description empty or no NA token decodes from its own encoding
unchanged. -/
theorem decode_row_encode (r : Record)
    (hd : ∃ dt, valid_date dt ∧ r.date = some (iso_string dt))
    (ha : ∃ q, r.amount = .num q ∧ is_decimal q)
    (hc : r.category ∉ na_tokens)
    (hde : r.description = "" ∨ r.description ∉ na_tokens) :
    decode_row DEFAULT_COLUMNS
      [r.date.getD "", r.category, amount_to_string r.amount, r.description] = r := by
  obtain ⟨dt, hv, hdate⟩ := hd
  obtain ⟨q, hamt, hdec⟩ := ha
  cases r with
  | mk rdate rcat ramt rdesc =>
    simp only at hdate hamt hc hde
    subst hdate
    subst hamt
    unfold decode_row
    simp only [Record.mk.injEq]
    refine ⟨?_, ?_, ?_, ?_⟩
    · rw [show (some (iso_string dt)).getD "" = iso_string dt from rfl, cell_of_date,
        if_neg (iso_string_not_na dt hv)]
      simp [pd_parse_iso_string dt hv]
    · rw [cell_of_category, if_neg hc]
      rfl
    · rw [cell_of_amount, if_neg (amount_to_string_not_na q)]
      simp [amount_round_trip q hdec]
    · rcases hde with hde | hde
      · rw [cell_of_description, hde, if_pos (by decide : ("" : String) ∈ na_tokens)]
        rfl
      · rw [cell_of_description, if_neg hde]
        rfl

/-- Canonical-form records survive `decode ∘ encode` unchanged: the dates are
valid zero-padded ISO strings, the amounts finite decimals, the categories no
`read_csv` NA tokens, the descriptions empty or no NA tokens. -/
theorem decode_encode (records : List Record)
    (h : ∀ r ∈ records,
      (∃ dt, valid_date dt ∧ r.date = some (iso_string dt)) ∧
      (∃ q, r.amount = .num q ∧ is_decimal q) ∧
      r.category ∉ na_tokens ∧
      (r.description = "" ∨ r.description ∉ na_tokens)) :
    decode (encode records) = .ok records := by
  unfold decode encode
  simp only
  rw [if_pos (by decide)]
  congr 1
  rw [List.map_map]
  have hcong : ∀ r ∈ records,
      (decode_row DEFAULT_COLUMNS ∘ fun r : Record =>
        [r.date.getD "", r.category, amount_to_string r.amount, r.description]) r = id r := by
    intro r hr
    obtain ⟨h1, h2, h3, h4⟩ := h r hr
    exact decode_row_encode r h1 h2 h3 h4
  rw [List.map_congr_left hcong, List.map_id]

/-! ## Lemmas: the filter handler -/

theorem parse_date_ok_some (s : String) (fd : CalDate) (h : parse_date s = .ok (some fd)) :
    try_formats s.trim = some fd := by
  unfold parse_date at h
  by_cases ht : s.trim = ""
  · rw [if_pos ht] at h
    simp at h
  · rw [if_neg ht] at h
    cases hc : try_formats s.trim with
    | some d => rw [hc] at h; simp at h; rw [h]
    | none => rw [hc] at h; cases h

theorem date_col_filter_ok (l : List Record) (p : CalDate → Bool) (out : List Record)
    (h : date_col_filter l p = .ok out) :
    out = l.filter fun r =>
      match row_date r with
      | some d => p d
      | none => false := by
  unfold date_col_filter at h
  by_cases hall : l.all date_cell_parseable
  · rw [if_pos hall] at h
    cases h
    rfl
  · rw [if_neg hall] at h
    cases h

theorem from_step_ok (l : List Record) (fromS : String) (df1 : List Record)
    (h : from_step l fromS = .ok df1) : df1 = l.filter (from_pred fromS) := by
  unfold from_step at h
  by_cases ht : fromS.trim = ""
  · rw [if_pos ht] at h
    cases h
    symm
    rw [List.filter_eq_self]
    intro r _
    simp [from_pred, ht]
  · rw [if_neg ht] at h
    cases hp : parse_date fromS with
    | ok v =>
      cases v with
      | some fd =>
        rw [hp] at h
        have := date_col_filter_ok l _ df1 h
        rw [this]
        apply List.filter_congr
        intro r _
        simp [from_pred, ht, parse_date_ok_some fromS fd hp]
      | none => rw [hp] at h; cases h
    | error e => rw [hp] at h; cases h

theorem to_step_ok (l : List Record) (toS : String) (df2 : List Record)
    (h : to_step l toS = .ok df2) : df2 = l.filter (to_pred toS) := by
  unfold to_step at h
  by_cases ht : toS.trim = ""
  · rw [if_pos ht] at h
    cases h
    symm
    rw [List.filter_eq_self]
    intro r _
    simp [to_pred, ht]
  · rw [if_neg ht] at h
    cases hp : parse_date toS with
    | ok v =>
      cases v with
      | some td =>
        rw [hp] at h
        have := date_col_filter_ok l _ df2 h
        rw [this]
        apply List.filter_congr
        intro r _
        simp [to_pred, ht, parse_date_ok_some toS td hp]
      | none => rw [hp] at h; cases h
    | error e => rw [hp] at h; cases h

theorem category_step_eq (l : List Record) (c : String) :
    category_step l c = l.filter (cat_pred c) := by
  unfold category_step
  by_cases hc : c ≠ "" ∧ c ≠ "All"
  · rw [if_pos hc]
    apply List.filter_congr
    intro r _
    simp [cat_pred, hc]
  · rw [if_neg hc]
    symm
    rw [List.filter_eq_self]
    intro r _
    simp [cat_pred, hc]

/-- The successful filter computation is exactly one stable pass of
`criteria_spec` over the store. -/
theorem apply_filter_core_ok (df0 : List Record) (f t c : String) (view : List Record)
    (h : apply_filter_core df0 f t c = .ok view) :
    view = df0.filter (criteria_spec f t c) := by
  unfold apply_filter_core at h
  cases h1 : from_step df0 f with
  | error e => rw [h1] at h; cases h
  | ok df1 =>
    rw [h1] at h
    dsimp only at h
    cases h2 : to_step df1 t with
    | error e => rw [h2] at h; cases h
    | ok df2 =>
      rw [h2] at h
      dsimp only at h
      cases h
      rw [category_step_eq, to_step_ok df1 t df2 h2, from_step_ok df0 f df1 h1,
        List.filter_filter, List.filter_filter]
      apply List.filter_congr
      intro r _
      unfold criteria_spec
      cases from_pred f r <;> cases to_pred t r <;> cases cat_pred c r <;> rfl

/-! ## Lemmas: the aggregation total -/

theorem foldl_add_amount_num (qs : List ℚ) (a : ℚ) :
    (qs.map Amount.num).foldl add_amount (.num a) = .num (a + qs.sum) := by
  induction qs generalizing a with
  | nil => simp
  | cons q tqs ih =>
    simp only [List.map_cons, List.foldl_cons, add_amount, ih, List.sum_cons]
    congr 1
    ring

/-- With no infinite amount in the view, the displayed total is the exact sum
of the finite amounts, a `NaN` contributing `0`. -/
theorem total_of_eq_sum (view : List Record)
    (h : ∀ r ∈ view, r.amount ≠ .inf ∧ r.amount ≠ .neginf) :
    total_of view = .num ((view.map fun r => rat_of r.amount).sum) := by
  have hmap : (view.map Record.amount).map fillna0 =
      ((view.map fun r => rat_of r.amount).map Amount.num) := by
    rw [List.map_map, List.map_map]
    apply List.map_congr_left
    intro r hr
    obtain ⟨h1, h2⟩ := h r hr
    simp only [Function.comp]
    cases hamt : r.amount with
    | num q => rfl
    | nan => rfl
    | inf => exact absurd hamt h1
    | neginf => exact absurd hamt h2
  unfold total_of
  rw [hmap]
  by_cases hv : view = []
  · subst hv
    rfl
  · have hne : (((view.map fun r => rat_of r.amount).map Amount.num)).isEmpty = false := by
      cases view with
      | nil => exact absurd rfl hv
      | cons a b => rfl
    rw [if_neg (by rw [hne]; simp), foldl_add_amount_num, zero_add]

/-! ## Lemmas: the merge-based removal -/

theorem merge_remove_eq_filter (df tr : List Record) :
    merge_remove df tr = df.filter fun r => !(tr.any (tuple_eq r)) := by
  induction df with
  | nil => rfl
  | cons r rest ih =>
    unfold merge_remove merge_rows
    unfold merge_remove merge_rows at ih
    rw [List.flatMap_cons, List.filter_append, List.map_append, ih]
    by_cases hms : (tr.filter (tuple_eq r)).isEmpty
    · have hnil : tr.filter (tuple_eq r) = [] := List.isEmpty_iff.mp hms
      have hany : tr.any (tuple_eq r) = false := by
        rw [List.any_eq_false]
        intro x hx hpx
        have : x ∈ tr.filter (tuple_eq r) := List.mem_filter.mpr ⟨hx, hpx⟩
        rw [hnil] at this
        cases this
      rw [if_pos hms]
      conv_rhs => rw [List.filter_cons_of_pos (by rw [hany]; rfl)]
      rfl
    · have hany : tr.any (tuple_eq r) = true := by
        rw [List.any_eq_true]
        cases hl : tr.filter (tuple_eq r) with
        | nil => rw [hl] at hms; exact absurd rfl hms
        | cons x xs =>
          have hx : x ∈ tr.filter (tuple_eq r) := by rw [hl]; exact List.mem_cons_self x xs
          exact ⟨x, (List.mem_filter.mp hx).1, (List.mem_filter.mp hx).2⟩
      rw [if_neg hms]
      conv_rhs => rw [List.filter_cons_of_neg (by rw [hany]; simp)]
      have hdrop : (((tr.filter (tuple_eq r)).map fun _ => (r, true)).filter fun p => !p.2) = [] := by
        rw [List.filter_map]
        have : ((tr.filter (tuple_eq r)).filter ((fun p : Record × Bool => !p.2) ∘ fun _ => (r, true))) = [] := by
          rw [List.filter_eq_nil_iff]
          intro a _
          simp [Function.comp]
        rw [this]
        rfl
      rw [hdrop]
      rfl

/-! ## Lemmas: unfolding the delete handler -/

theorem matched_indices_nil (view : List Record) : matched_indices view [] = [] := rfl

theorem on_delete_not_found (s : AppState) (sel : List SelRow) (hsel : sel ≠ [])
    (hm : matched_indices (get_view_df s) sel = []) :
    on_delete s sel true = (s, .notFound) := by
  have h1 : sel.isEmpty = false := by
    cases sel with
    | nil => exact absurd rfl hsel
    | cons a b => rfl
  unfold on_delete
  simp only [h1, hm, Bool.not_true]
  rfl

theorem on_delete_unfiltered (s : AppState) (sel : List SelRow) (hf : s.filtered = none)
    (hm : matched_indices s.df sel ≠ []) :
    on_delete s sel true =
      (clear_filter { s with df := drop_indices s.df (matched_indices s.df sel) }, .deleted) := by
  have hsel : sel ≠ [] := by
    intro hh
    rw [hh, matched_indices_nil] at hm
    exact hm rfl
  have h1 : sel.isEmpty = false := by
    cases sel with
    | nil => exact absurd rfl hsel
    | cons a b => rfl
  have hview : get_view_df s = s.df := by rw [get_view_df, hf]; rfl
  have h2 : (matched_indices s.df sel).isEmpty = false := by
    cases hmi : matched_indices s.df sel with
    | nil => exact absurd hmi hm
    | cons a b => rfl
  unfold on_delete
  simp only [h1, hview, hf, Bool.not_true]
  rw [if_neg Bool.false_ne_true, if_neg Bool.false_ne_true,
    if_neg (fun hh => Bool.false_ne_true (h2 ▸ hh))]

theorem on_delete_filtered (s : AppState) (v : List Record) (sel : List SelRow)
    (hf : s.filtered = some v) (hm : matched_indices v sel ≠ []) :
    on_delete s sel true =
      (clear_filter { s with df := merge_remove s.df (rows_at v (matched_indices v sel)) },
        .deleted) := by
  have hsel : sel ≠ [] := by
    intro hh
    rw [hh, matched_indices_nil] at hm
    exact hm rfl
  have h1 : sel.isEmpty = false := by
    cases sel with
    | nil => exact absurd rfl hsel
    | cons a b => rfl
  have hview : get_view_df s = v := by rw [get_view_df, hf]; rfl
  have h2 : (matched_indices v sel).isEmpty = false := by
    cases hmi : matched_indices v sel with
    | nil => exact absurd hmi hm
    | cons a b => rfl
  unfold on_delete
  simp only [h1, hview, hf, Bool.not_true]
  rw [if_neg Bool.false_ne_true, if_neg Bool.false_ne_true,
    if_neg (fun hh => Bool.false_ne_true (h2 ▸ hh))]

/-! ## Lemmas: filter failure paths -/

theorem parse_date_error_of (s : String) (h1 : s.trim ≠ "") (h2 : try_formats s.trim = none) :
    parse_date s = .error "Invalid date format. Try YYYY-MM-DD (e.g., 2025-08-16)." := by
  unfold parse_date
  rw [if_neg h1, h2]

theorem from_step_error_invalid (l : List Record) (fromS : String) (h1 : fromS.trim ≠ "")
    (h2 : try_formats fromS.trim = none) :
    from_step l fromS = .error .invalidCriteria := by
  unfold from_step
  rw [if_neg h1, parse_date_error_of fromS h1 h2]

theorem to_step_error_invalid (l : List Record) (toS : String) (h1 : toS.trim ≠ "")
    (h2 : try_formats toS.trim = none) :
    to_step l toS = .error .invalidCriteria := by
  unfold to_step
  rw [if_neg h1, parse_date_error_of toS h1 h2]

theorem from_step_parseable (l : List Record) (fromS : String)
    (hall : ∀ r ∈ l, date_cell_parseable r = true) :
    from_step l fromS = .error .invalidCriteria ∨
      ∃ df1, from_step l fromS = .ok df1 ∧ ∀ r ∈ df1, date_cell_parseable r = true := by
  unfold from_step
  by_cases ht : fromS.trim = ""
  · right
    exact ⟨l, by rw [if_pos ht], hall⟩
  · cases hp : try_formats fromS.trim with
    | none =>
      left
      rw [if_neg ht, parse_date_error_of fromS ht hp]
    | some fd =>
      right
      have hps : parse_date fromS = .ok (some fd) := by
        unfold parse_date
        rw [if_neg ht, hp]
      refine ⟨l.filter fun r =>
        match row_date r with
        | some d => date_le fd d
        | none => false, ?_, ?_⟩
      · rw [if_neg ht, hps]
        dsimp only
        unfold date_col_filter
        rw [if_pos (List.all_eq_true.mpr hall)]
      · intro r hr
        exact hall r (List.mem_filter.mp hr).1

/-- With a well-formed date column (the store invariant), an unparsable
non-blank bound makes the whole filter computation fail with the
`parse_date` `ValueError` — the `InvalidCriteria` case. -/
theorem apply_filter_core_invalid (df0 : List Record) (f t c : String)
    (hinv : ∀ r ∈ df0, date_cell_parseable r = true)
    (h : (f.trim ≠ "" ∧ try_formats f.trim = none) ∨
         (t.trim ≠ "" ∧ try_formats t.trim = none)) :
    apply_filter_core df0 f t c = .error .invalidCriteria := by
  unfold apply_filter_core
  rcases h with ⟨h1, h2⟩ | ⟨h1, h2⟩
  · rw [from_step_error_invalid df0 f h1 h2]
  · rcases from_step_parseable df0 f hinv with hfe | ⟨df1, hok, hall1⟩
    · rw [hfe]
    · rw [hok]
      dsimp only
      rw [to_step_error_invalid df1 t h1 h2]

/-! ## Lemmas: decode structure -/

theorem decode_ok_shape (csv : CSVTable) (l : List Record) (h : decode csv = .ok l) :
    l.length = csv.rows.length ∧
      ∀ r ∈ l, r.date = none ∨ ∃ dt, valid_date dt ∧ r.date = some (iso_string dt) := by
  unfold decode at h
  by_cases hmiss : (DEFAULT_COLUMNS.filter fun c => !csv.header.contains c).isEmpty
  · rw [if_pos hmiss] at h
    cases h
    constructor
    · exact List.length_map _ _
    · intro r hr
      rcases List.mem_map.mp hr with ⟨row, _, rfl⟩
      unfold decode_row
      cases hb : (cell_of csv.header row "Date").bind pd_parse with
      | none => left; rfl
      | some dt =>
        right
        obtain ⟨s2, _, hps⟩ := Option.bind_eq_some.mp hb
        exact ⟨dt, pd_parse_valid s2 dt hps, rfl⟩
  · rw [if_neg hmiss] at h
    cases h

theorem decode_schema_error (csv : CSVTable)
    (h : ∃ col ∈ DEFAULT_COLUMNS, ¬ csv.header.contains col) :
    decode csv = .error (.schemaError (DEFAULT_COLUMNS.filter fun c => !csv.header.contains c)) := by
  obtain ⟨col, hmem, hnc⟩ := h
  have hcf : csv.header.contains col = false := by
    cases hcc : csv.header.contains col with
    | false => rfl
    | true => exact absurd hcc hnc
  have hin : col ∈ DEFAULT_COLUMNS.filter fun c => !csv.header.contains c :=
    List.mem_filter.mpr ⟨hmem, by rw [hcf]; rfl⟩
  have hne : (DEFAULT_COLUMNS.filter fun c => !csv.header.contains c).isEmpty = false := by
    cases hl : DEFAULT_COLUMNS.filter fun c => !csv.header.contains c with
    | nil => rw [hl] at hin; cases hin
    | cons a b => rfl
  unfold decode
  rw [if_neg (by rw [hne]; exact Bool.false_ne_true)]

/-! ## The claims -/

/-- C1: for every deletion performed while a filter is active in which at
least one selected row matches a view row, the new canonical store is the old
store with every record removed whose full field-tuple equals one of the
matched view rows (so a field-for-field duplicate of a selected row is
removed too), and afterwards the filter entries and cached view are cleared
and the displayed view is recomputed from the new store. -/
theorem claim_c1_filtered_delete (s : AppState) (v : List Record) (sel : List SelRow)
    (hf : s.filtered = some v) (hm : matched_indices v sel ≠ []) :
    (on_delete s sel true).1.df =
      s.df.filter (fun r => !((rows_at v (matched_indices v sel)).any (tuple_eq r))) ∧
    (on_delete s sel true).1.filtered = none ∧
    (on_delete s sel true).1.fromVar = "" ∧
    (on_delete s sel true).1.toVar = "" ∧
    (on_delete s sel true).1.filterCatVar = "All" ∧
    get_view_df (on_delete s sel true).1 = (on_delete s sel true).1.df ∧
    (on_delete s sel true).2 = .deleted := by
  rw [on_delete_filtered s v sel hf hm]
  exact ⟨merge_remove_eq_filter s.df _, rfl, rfl, rfl, rfl, rfl, rfl⟩

theorem claim_c1_filtered_delete_witness :
    ((⟨[⟨some "2025-01-05", "Food", .num 1, "a"⟩, ⟨some "2025-01-06", "Bills", .num 2, "b"⟩,
        ⟨some "2025-01-05", "Food", .num 1, "a"⟩],
      some [⟨some "2025-01-05", "Food", .num 1, "a"⟩], "", "", "Food"⟩ : AppState).filtered =
        some [⟨some "2025-01-05", "Food", .num 1, "a"⟩] ∧
      matched_indices [⟨some "2025-01-05", "Food", .num 1, "a"⟩]
        [⟨"2025-01-05", "Food", 1, "a"⟩] ≠ []) ∧
    (on_delete
      (⟨[⟨some "2025-01-05", "Food", .num 1, "a"⟩, ⟨some "2025-01-06", "Bills", .num 2, "b"⟩,
          ⟨some "2025-01-05", "Food", .num 1, "a"⟩],
        some [⟨some "2025-01-05", "Food", .num 1, "a"⟩], "", "", "Food"⟩ : AppState)
      [⟨"2025-01-05", "Food", 1, "a"⟩] true).1.df =
      [⟨some "2025-01-06", "Bills", .num 2, "b"⟩] := by
  refine ⟨⟨rfl, by with_unfolding_all decide⟩, ?_⟩
  rw [(claim_c1_filtered_delete _ _ _ rfl (by with_unfolding_all decide)).1]
  with_unfolding_all decide

/-- C3: a confirmed delete of a non-empty selection in which no selected row
matches any view row reports the could-not-locate warning (`NotFoundError`)
and changes nothing: store, cached view and filter entries all stay as they
were. -/
theorem claim_c3_not_found (s : AppState) (sel : List SelRow) (hsel : sel ≠ [])
    (hm : matched_indices (get_view_df s) sel = []) :
    on_delete s sel true = (s, .notFound) :=
  on_delete_not_found s sel hsel hm

theorem claim_c3_not_found_witness :
    (([⟨"2025-01-07", "Travel", 9, "zz"⟩] : List SelRow) ≠ [] ∧
      matched_indices
        (get_view_df (⟨[⟨some "2025-01-05", "Food", .num 1, "a"⟩], none, "", "", "All"⟩ : AppState))
        [⟨"2025-01-07", "Travel", 9, "zz"⟩] = []) ∧
    on_delete (⟨[⟨some "2025-01-05", "Food", .num 1, "a"⟩], none, "", "", "All"⟩ : AppState)
      [⟨"2025-01-07", "Travel", 9, "zz"⟩] true =
      ((⟨[⟨some "2025-01-05", "Food", .num 1, "a"⟩], none, "", "", "All"⟩ : AppState), .notFound) :=
  ⟨⟨by with_unfolding_all decide, by with_unfolding_all decide⟩,
    claim_c3_not_found _ _ (by with_unfolding_all decide) (by with_unfolding_all decide)⟩

/-- C4: whenever the filter computation succeeds, the produced view is an
order-preserving subsequence of the store holding exactly the records whose
date lies within the present bounds inclusively and whose category equals the
constraint when one is present (`criteria_spec`); the handler leaves the
canonical store untouched and installs the view as the cached filter. -/
theorem claim_c4_filter_subsequence (s : AppState) (view : List Record)
    (h : apply_filter_core s.df s.fromVar s.toVar s.filterCatVar = .ok view) :
    view.Sublist s.df ∧
    view = s.df.filter (criteria_spec s.fromVar s.toVar s.filterCatVar) ∧
    (∀ r, r ∈ view ↔ r ∈ s.df ∧ criteria_spec s.fromVar s.toVar s.filterCatVar r = true) ∧
    (apply_filter s).df = s.df ∧
    (apply_filter s).filtered = some view := by
  have hv := apply_filter_core_ok s.df s.fromVar s.toVar s.filterCatVar view h
  refine ⟨hv ▸ List.filter_sublist s.df, hv, ?_, ?_, ?_⟩
  · intro r
    rw [hv]
    exact List.mem_filter
  · unfold apply_filter
    rw [h]
  · unfold apply_filter
    rw [h]

theorem claim_c4_filter_subsequence_witness :
    apply_filter_core
        (⟨[⟨some "2025-01-05", "Food", .num 1, "a"⟩, ⟨some "2025-02-05", "Bills", .num 2, "b"⟩],
          none, "2025-01-10", "", "All"⟩ : AppState).df
        "2025-01-10" "" "All" = .ok [⟨some "2025-02-05", "Bills", .num 2, "b"⟩] ∧
    ([⟨some "2025-02-05", "Bills", .num 2, "b"⟩] : List Record).Sublist
        [⟨some "2025-01-05", "Food", .num 1, "a"⟩, ⟨some "2025-02-05", "Bills", .num 2, "b"⟩] ∧
    [⟨some "2025-02-05", "Bills", .num 2, "b"⟩] =
      List.filter (criteria_spec "2025-01-10" "" "All")
        [⟨some "2025-01-05", "Food", .num 1, "a"⟩, ⟨some "2025-02-05", "Bills", .num 2, "b"⟩] := by
  have h : apply_filter_core
      (⟨[⟨some "2025-01-05", "Food", .num 1, "a"⟩, ⟨some "2025-02-05", "Bills", .num 2, "b"⟩],
        none, "2025-01-10", "", "All"⟩ : AppState).df
      "2025-01-10" "" "All" = .ok [⟨some "2025-02-05", "Bills", .num 2, "b"⟩] := by
    with_unfolding_all decide
  have hc := claim_c4_filter_subsequence
    (⟨[⟨some "2025-01-05", "Food", .num 1, "a"⟩, ⟨some "2025-02-05", "Bills", .num 2, "b"⟩],
      none, "2025-01-10", "", "All"⟩ : AppState)
    [⟨some "2025-02-05", "Bills", .num 2, "b"⟩] h
  exact ⟨h, hc.1, hc.2.1⟩

/-- C5: for every view whose amounts are all finite numerics (the canonical
data-model invariant), the displayed total is exactly the sum of the amounts,
and the empty view totals 0. -/
theorem claim_c5_total_is_sum (view : List Record)
    (h : ∀ r ∈ view, ∃ q, r.amount = Amount.num q) :
    total_of view = .num ((view.map fun r => rat_of r.amount).sum) ∧
    total_of ([] : List Record) = .num 0 := by
  refine ⟨?_, rfl⟩
  apply total_of_eq_sum
  intro r hr
  obtain ⟨q, hq⟩ := h r hr
  exact ⟨fun hh => Amount.noConfusion (hq ▸ hh), fun hh => Amount.noConfusion (hq ▸ hh)⟩

theorem claim_c5_total_is_sum_witness :
    (∀ r ∈ ([⟨some "2025-01-05", "Food", .num ((25 : ℚ)/2), "lunch"⟩,
        ⟨some "2025-01-06", "Transport", .num 3, "bus"⟩] : List Record),
      ∃ q, r.amount = Amount.num q) ∧
    (total_of [⟨some "2025-01-05", "Food", .num ((25 : ℚ)/2), "lunch"⟩,
        ⟨some "2025-01-06", "Transport", .num 3, "bus"⟩] =
      .num (([⟨some "2025-01-05", "Food", .num ((25 : ℚ)/2), "lunch"⟩,
        ⟨some "2025-01-06", "Transport", .num 3, "bus"⟩] : List Record).map
          (fun r => rat_of r.amount)).sum ∧
      total_of ([] : List Record) = .num 0) ∧
    total_of [⟨some "2025-01-05", "Food", .num ((25 : ℚ)/2), "lunch"⟩,
        ⟨some "2025-01-06", "Transport", .num 3, "bus"⟩] = .num ((31 : ℚ)/2) := by
  have hyp : ∀ r ∈ ([⟨some "2025-01-05", "Food", .num ((25 : ℚ)/2), "lunch"⟩,
      ⟨some "2025-01-06", "Transport", .num 3, "bus"⟩] : List Record),
      ∃ q, r.amount = Amount.num q := by
    intro r hr
    rcases List.mem_cons.mp hr with rfl | hr2
    · exact ⟨(25 : ℚ)/2, rfl⟩
    rcases List.mem_cons.mp hr2 with rfl | hr3
    · exact ⟨3, rfl⟩
    · cases hr3
  refine ⟨hyp, claim_c5_total_is_sum _ hyp, ?_⟩
  with_unfolding_all decide

/-- C2 counterexample: a CSV row whose `Date` cell parses under no format is
NOT dropped by `load_csv` — it stays in the decoded result with a missing
date, so the decoded output does not consist only of valid-date records. -/
theorem claim_c2_counterexample :
    decode ⟨["Date", "Category", "Amount", "Description"], [["garbage", "Food", "1.5", "x"]]⟩ =
      .ok [⟨none, "Food", .num ((3 : ℚ)/2), "x"⟩] ∧
    pd_parse "garbage" = none ∧
    (⟨none, "Food", .num ((3 : ℚ)/2), "x"⟩ : Record).date = none ∧
    (⟨["Date", "Category", "Amount", "Description"],
      [["garbage", "Food", "1.5", "x"]]⟩ : CSVTable).rows.length = 1 := by
  with_unfolding_all decide

/-- C2 as amended: `load_csv` never drops a row — the decoded output has
exactly one record per CSV row, and each decoded date is either the missing
marker (`NaT`/`NaN`, for absent or unparsable cells) or a valid calendar date
normalized to ISO form. -/
theorem claim_c2_decode_keeps_rows (csv : CSVTable) (l : List Record)
    (h : decode csv = .ok l) :
    l.length = csv.rows.length ∧
      ∀ r ∈ l, r.date = none ∨ ∃ dt, valid_date dt ∧ r.date = some (iso_string dt) :=
  decode_ok_shape csv l h

theorem claim_c2_decode_keeps_rows_witness :
    decode ⟨["Date", "Category", "Amount", "Description"],
        [["garbage", "Food", "1.5", "x"], ["2025-03-15", "", "abc", ""]]⟩ =
      .ok [⟨none, "Food", .num ((3 : ℚ)/2), "x"⟩, ⟨some "2025-03-15", "Other", .num 0, ""⟩] ∧
    (([⟨none, "Food", .num ((3 : ℚ)/2), "x"⟩,
        ⟨some "2025-03-15", "Other", .num 0, ""⟩] : List Record).length =
      ([["garbage", "Food", "1.5", "x"], ["2025-03-15", "", "abc", ""]] : List (List String)).length ∧
      ∀ r ∈ ([⟨none, "Food", .num ((3 : ℚ)/2), "x"⟩,
        ⟨some "2025-03-15", "Other", .num 0, ""⟩] : List Record),
        r.date = none ∨ ∃ dt, valid_date dt ∧ r.date = some (iso_string dt)) := by
  have h : decode ⟨["Date", "Category", "Amount", "Description"],
      [["garbage", "Food", "1.5", "x"], ["2025-03-15", "", "abc", ""]]⟩ =
      .ok [⟨none, "Food", .num ((3 : ℚ)/2), "x"⟩, ⟨some "2025-03-15", "Other", .num 0, ""⟩] := by
    with_unfolding_all decide
  exact ⟨h, claim_c2_decode_keeps_rows _ _ h⟩

/-- C6 counterexample: an infinite amount reaching the summation is not
treated as 0 — `np.nansum` propagates it, so a one-record view with amount
`inf` totals `inf`, not `0`. -/
theorem claim_c6_counterexample :
    total_of [⟨some "2025-01-01", "Food", .inf, "boom"⟩] = .inf ∧
    Amount.inf ≠ .num 0 := by
  with_unfolding_all decide

/-- C6 as amended: the summation is a total function (never raises) and `NaN`
amounts are coerced to 0 by `fillna(0.0)`, so whenever the view holds no
infinite amount the total is the exact sum with `NaN` contributing 0; but an
infinite amount propagates into the total rather than being treated as 0. -/
theorem claim_c6_nan_to_zero (view : List Record)
    (h : ∀ r ∈ view, r.amount ≠ .inf ∧ r.amount ≠ .neginf) :
    total_of view = .num ((view.map fun r => rat_of r.amount).sum) :=
  total_of_eq_sum view h

theorem claim_c6_nan_to_zero_witness :
    (∀ r ∈ ([⟨some "2025-01-05", "Food", .nan, "a"⟩,
        ⟨some "2025-01-06", "Bills", .num 2, "b"⟩] : List Record),
      r.amount ≠ .inf ∧ r.amount ≠ .neginf) ∧
    total_of [⟨some "2025-01-05", "Food", .nan, "a"⟩, ⟨some "2025-01-06", "Bills", .num 2, "b"⟩] =
      .num (([⟨some "2025-01-05", "Food", .nan, "a"⟩,
        ⟨some "2025-01-06", "Bills", .num 2, "b"⟩] : List Record).map
          (fun r => rat_of r.amount)).sum ∧
    total_of [⟨some "2025-01-05", "Food", .nan, "a"⟩, ⟨some "2025-01-06", "Bills", .num 2, "b"⟩] =
      .num 2 := by
  refine ⟨by with_unfolding_all decide, claim_c6_nan_to_zero _ (by with_unfolding_all decide), ?_⟩
  with_unfolding_all decide

/-- C7: decoding a CSV missing at least one required column fails with a
`SchemaError` naming exactly the missing required columns, and the check
precedes any per-row work — the same error results whatever the rows are. -/
theorem claim_c7_schema_error (csv : CSVTable)
    (h : ∃ col ∈ DEFAULT_COLUMNS, ¬ csv.header.contains col) :
    decode csv = .error (.schemaError (DEFAULT_COLUMNS.filter fun c => !csv.header.contains c)) ∧
    (DEFAULT_COLUMNS.filter fun c => !csv.header.contains c) ≠ [] ∧
    ∀ rows2, decode ⟨csv.header, rows2⟩ =
      .error (.schemaError (DEFAULT_COLUMNS.filter fun c => !csv.header.contains c)) := by
  obtain ⟨col, hmem, hnc⟩ := h
  refine ⟨decode_schema_error csv ⟨col, hmem, hnc⟩, ?_, fun rows2 =>
    decode_schema_error ⟨csv.header, rows2⟩ ⟨col, hmem, hnc⟩⟩
  intro hnil
  have hcf : csv.header.contains col = false := by
    cases hcc : csv.header.contains col with
    | false => rfl
    | true => exact absurd hcc hnc
  have hin : col ∈ DEFAULT_COLUMNS.filter fun c => !csv.header.contains c :=
    List.mem_filter.mpr ⟨hmem, by rw [hcf]; rfl⟩
  rw [hnil] at hin
  cases hin

theorem claim_c7_schema_error_witness :
    (∃ col ∈ DEFAULT_COLUMNS,
      ¬ (⟨["Date", "Category", "Description"],
          [["2025-01-05", "Food", "x"]]⟩ : CSVTable).header.contains col) ∧
    decode ⟨["Date", "Category", "Description"], [["2025-01-05", "Food", "x"]]⟩ =
      .error (.schemaError ["Amount"]) := by
  have h : ∃ col ∈ DEFAULT_COLUMNS,
      ¬ (⟨["Date", "Category", "Description"],
          [["2025-01-05", "Food", "x"]]⟩ : CSVTable).header.contains col := by
    exact ⟨"Amount", by with_unfolding_all decide, by with_unfolding_all decide⟩
  refine ⟨h, ?_⟩
  have hc := (claim_c7_schema_error _ h).1
  rw [hc]
  with_unfolding_all decide

/-- C8: with the canonical store's dates all acceptable to the column
conversion (the data-model invariant), a non-blank bound entry that parses
under no format makes `apply_filter` fail with the `parse_date` error
(`InvalidCriteria`) and mutate nothing: the handler returns the state
unchanged. -/
theorem claim_c8_invalid_bound (s : AppState)
    (hinv : ∀ r ∈ s.df, date_cell_parseable r = true)
    (h : (s.fromVar.trim ≠ "" ∧ try_formats s.fromVar.trim = none) ∨
         (s.toVar.trim ≠ "" ∧ try_formats s.toVar.trim = none)) :
    apply_filter_core s.df s.fromVar s.toVar s.filterCatVar = .error .invalidCriteria ∧
    apply_filter s = s := by
  have hc := apply_filter_core_invalid s.df s.fromVar s.toVar s.filterCatVar hinv h
  refine ⟨hc, ?_⟩
  unfold apply_filter
  rw [hc]

theorem claim_c8_invalid_bound_witness :
    ((∀ r ∈ (⟨[⟨some "2025-01-05", "Food", .num 1, "a"⟩], none,
        "soon", "", "All"⟩ : AppState).df, date_cell_parseable r = true) ∧
      (("soon" : String).trim ≠ "" ∧ try_formats ("soon" : String).trim = none)) ∧
    apply_filter_core [⟨some "2025-01-05", "Food", .num 1, "a"⟩] "soon" "" "All" =
      .error .invalidCriteria ∧
    apply_filter (⟨[⟨some "2025-01-05", "Food", .num 1, "a"⟩], none, "soon", "", "All"⟩ : AppState) =
      (⟨[⟨some "2025-01-05", "Food", .num 1, "a"⟩], none, "soon", "", "All"⟩ : AppState) := by
  refine ⟨⟨by with_unfolding_all decide, by with_unfolding_all decide⟩, ?_⟩
  exact claim_c8_invalid_bound
    (⟨[⟨some "2025-01-05", "Food", .num 1, "a"⟩], none, "soon", "", "All"⟩ : AppState)
    (by with_unfolding_all decide)
    (Or.inl (by with_unfolding_all decide))

/-- C10: with no filter active, a confirmed delete removes records from the
store by view position — for each selected row only the first matching view
occurrence is dropped — so a store of two field-identical records with one
selected keeps exactly one copy, whereas the filtered path (field-tuple merge
removal) would delete both. -/
theorem claim_c10_unfiltered_delete (s : AppState) (sel : List SelRow)
    (hf : s.filtered = none) (hm : matched_indices s.df sel ≠ []) :
    (on_delete s sel true).1.df = drop_indices s.df (matched_indices s.df sel) ∧
    (∀ r : Record, ∀ sr : SelRow, matches_sel r sr = true →
      (on_delete (⟨[r, r], none, "", "", "All"⟩ : AppState) [sr] true).1.df = [r]) ∧
    (∀ r : Record, ∀ sr : SelRow, matches_sel r sr = true →
      (on_delete (⟨[r, r], some [r, r], "", "", "All"⟩ : AppState) [sr] true).1.df = []) := by
  refine ⟨by rw [on_delete_unfiltered s sel hf hm]; rfl, ?_, ?_⟩
  · intro r sr hms
    have hffm : find_first_match [r, r] sr = some 0 := by
      unfold find_first_match
      rw [if_pos hms]
    have hmi : matched_indices ([r, r] : List Record) [sr] = [0] := by
      unfold matched_indices
      rw [List.filterMap_cons, hffm]
      rfl
    rw [on_delete_unfiltered (⟨[r, r], none, "", "", "All"⟩ : AppState) [sr] rfl
      (by rw [show (⟨[r, r], none, "", "", "All"⟩ : AppState).df = [r, r] from rfl, hmi]; simp)]
    show drop_indices [r, r] (matched_indices [r, r] [sr]) = [r]
    rw [hmi]
    simp [drop_indices, drop_indices_from]
  · intro r sr hms
    have hffm : find_first_match [r, r] sr = some 0 := by
      unfold find_first_match
      rw [if_pos hms]
    have hmi : matched_indices ([r, r] : List Record) [sr] = [0] := by
      unfold matched_indices
      rw [List.filterMap_cons, hffm]
      rfl
    rw [on_delete_filtered (⟨[r, r], some [r, r], "", "", "All"⟩ : AppState) [r, r] [sr] rfl
      (by rw [hmi]; simp)]
    show merge_remove [r, r] (rows_at [r, r] (matched_indices [r, r] [sr])) = []
    rw [hmi]
    have hrows : rows_at ([r, r] : List Record) [0] = [r] := by
      unfold rows_at
      rfl
    rw [hrows, merge_remove_eq_filter]
    have htup : tuple_eq r r = true := by
      simp [tuple_eq]
    rw [List.filter_eq_nil_iff]
    intro a ha
    rcases List.mem_cons.mp ha with rfl | ha2
    · simp [htup]
    rcases List.mem_cons.mp ha2 with rfl | ha3
    · simp [htup]
    · cases ha3

theorem claim_c10_unfiltered_delete_witness :
    ((⟨[⟨some "2025-01-05", "Food", .num 1, "a"⟩, ⟨some "2025-01-05", "Food", .num 1, "a"⟩],
        none, "", "", "All"⟩ : AppState).filtered = none ∧
      matched_indices
        [⟨some "2025-01-05", "Food", .num 1, "a"⟩, ⟨some "2025-01-05", "Food", .num 1, "a"⟩]
        [⟨"2025-01-05", "Food", 1, "a"⟩] ≠ []) ∧
    (on_delete
      (⟨[⟨some "2025-01-05", "Food", .num 1, "a"⟩, ⟨some "2025-01-05", "Food", .num 1, "a"⟩],
        none, "", "", "All"⟩ : AppState)
      [⟨"2025-01-05", "Food", 1, "a"⟩] true).1.df =
      [⟨some "2025-01-05", "Food", .num 1, "a"⟩] := by
  refine ⟨⟨rfl, by with_unfolding_all decide⟩, ?_⟩
  rw [(claim_c10_unfiltered_delete _ [⟨"2025-01-05", "Food", 1, "a"⟩] rfl
    (by with_unfolding_all decide)).1]
  with_unfolding_all decide

end ExpenseTrackerModel
